import Mathlib

/-!
Shallow embedding of the lol-match-analyzer pipeline (src/main.py).

Numbers: the upstream per-participant counters (kills, gold, vision score, …)
are JSON integers; they are embedded as `Nat`.  Python's true division `/`
on integers is embedded as exact division in `ℚ`, guarded by the
`ZeroDivisionError` that Python raises on a zero denominator; an aborted run
(an uncaught Python exception) is an `Except.error` value.  Python's
`round(x, 2)` (round half to even) is `round2` below.

External collaborators (the network transport) are passed in as explicit
parameters: `get_match_stats` receives the composite
`get_match_data ∘ format_match_data` as an environment `String → MatchData`,
and the already-resolved summoner name and rank strings; `get_summoner_rank`
receives the decoded rank-service response; `get_match_ids` receives a model
of the match-listing service (see further below).
-/

/-- One entry of the rank-service response used by get_summoner_rank
(src/main.py lines 83-87): the fields read are tier and rank. -/
structure RankEntry where
  tier : String
  rank : String
  deriving DecidableEq, Repr

/-- Embeds get_summoner_rank (src/main.py lines 78-87) after the HTTP layer:
on an empty entry list it returns the empty string, otherwise the tier and
rank of the first entry joined by a single space. -/
def get_summoner_rank (entries : List RankEntry) : String :=
  match entries with
  | [] => ""
  | e :: _ => e.tier ++ " " ++ e.rank

/-- The nested champion dictionary built by format_match_data
(src/main.py lines 166-183), restricted to the fields get_match_stats reads. -/
structure Champion where
  name : String
  kills : Nat
  deaths : Nat
  assists : Nat
  gold : Nat
  cs : Nat
  vision_score : Nat
  damage_dealt_to_champions : Nat
  damage_taken : Nat
  deriving DecidableEq, Repr

/-- One participant entry of a formatted match (src/main.py lines 162-184),
restricted to the fields get_match_stats reads. -/
structure Summoner where
  puuid : String
  champion : Champion
  deriving DecidableEq, Repr

/-- The formatted match dictionary built by format_match_data
(src/main.py lines 143-152): duration is already floor-divided to minutes,
start_time is the formatted timestamp string, and teams is the two-element
roster list (the source spells the winning-team key wining_team). -/
structure MatchData where
  start_time : String
  duration : Nat
  wining_team : Nat
  teams : List (List Summoner)
  deriving DecidableEq, Repr

/-- Python integer true division a / b as an exact rational, raising
ZeroDivisionError on a zero denominator. -/
def divQ (a b : Nat) : Except String ℚ :=
  if b = 0 then .error "ZeroDivisionError" else .ok ((a : ℚ) / (b : ℚ))

/-- Python division of a float (here an exact rational) by an int length,
raising ZeroDivisionError on a zero denominator. -/
def divQl (q : ℚ) (n : Nat) : Except String ℚ :=
  if n = 0 then .error "ZeroDivisionError" else .ok (q / (n : ℚ))

/-- Python sum over a list of numbers: a left fold of addition from 0. -/
def pySum (l : List ℚ) : ℚ := l.foldl (fun a b => a + b) 0

/-- Rounding to the nearest integer with ties going to the even integer,
the behaviour of Python round on an exact value. -/
def roundHalfEven (q : ℚ) : ℤ :=
  if q - ⌊q⌋ < 1/2 then ⌊q⌋
  else if 1/2 < q - ⌊q⌋ then ⌊q⌋ + 1
  else if ⌊q⌋ % 2 = 0 then ⌊q⌋ else ⌊q⌋ + 1

/-- Python round(x, 2): round half to even at two decimal places. -/
def round2 (q : ℚ) : ℚ := (roundHalfEven (q * 100) : ℚ) / 100

/-- The per-champion accumulator bucket of get_match_stats
(src/main.py lines 195-209). -/
structure ChampBucket where
  wins : Nat
  «matches» : Nat
  kills : Nat
  deaths : Nat
  assists : Nat
  cs : Nat
  gold_share : List ℚ
  damage_dealt_to_champions_share : List ℚ
  damage_taken_share : List ℚ
  vision_score_share : List ℚ
  kill_participation : List ℚ
  deriving DecidableEq, Repr

/-- The zero bucket produced by the defaultdict factory
(src/main.py lines 196-208). -/
def bucketInit : ChampBucket :=
  { wins := 0, «matches» := 0, kills := 0, deaths := 0, assists := 0, cs := 0,
    gold_share := [], damage_dealt_to_champions_share := [],
    damage_taken_share := [], vision_score_share := [], kill_participation := [] }

/-- Mutation of the defaultdict tmp at key k: update the existing bucket in
place, or (first access) create the default bucket at the end, in insertion
order as a Python dict does. -/
def tmpUpdate (tmp : List (String × ChampBucket)) (k : String)
    (f : ChampBucket → ChampBucket) : List (String × ChampBucket) :=
  if tmp.any (fun p => p.1 = k) then
    tmp.map (fun p => if p.1 = k then (p.1, f p.2) else p)
  else tmp ++ [(k, f bucketInit)]

/-- Team total of one champion counter, as the accumulation loop of
src/main.py lines 236-249 computes it. -/
def teamSum (f : Champion → Nat) (team : List Summoner) : Nat :=
  team.foldl (fun acc s => acc + f s.champion) 0

/-- The mutable local state of the per-match loop of get_match_stats:
the champion buckets, the qualifying-match counter, the window bounds
(None while still unassigned, as Python unbound locals) and the last
assigned value of puuid_team. -/
structure LoopState where
  tmp : List (String × ChampBucket)
  valid_matches : Nat
  start_time : Option String
  end_time : Option String
  puuid_team : Option Nat
  deriving DecidableEq, Repr

/-- State at loop entry: empty dict, zero counter, all locals unassigned. -/
def initState : LoopState :=
  { tmp := [], valid_matches := 0, start_time := none, end_time := none,
    puuid_team := none }

/-- The roster scan of src/main.py lines 230-233: team 0 is scanned first,
then team 1, each occurrence of the target puuid overwriting puuid_team,
so membership in team 1 wins, then membership in team 0; when the player is
on neither roster the previous value (possibly unassigned) survives. -/
def findTeam (m : MatchData) (puuid : String) (old : Option Nat) : Option Nat :=
  let afterTeam0 :=
    if (m.teams.getD 0 []).any (fun s => s.puuid = puuid) then some 0 else old
  if (m.teams.getD 1 []).any (fun s => s.puuid = puuid) then some 1 else afterTeam0

/-- The in-place mutation of the target champion's bucket for one qualifying
match (src/main.py lines 270-295): the win is credited only when the player's
team index pt equals the match's winning team, and the five already-computed
per-match shares are appended to the running lists. -/
def bucketAdd (winingTeam pt : Nat) (c : Champion) (gs ds dts vss kp : ℚ)
    (b : ChampBucket) : ChampBucket :=
  { b with
    wins := if pt = winingTeam then b.wins + 1 else b.wins
    «matches» := b.«matches» + 1
    kills := b.kills + c.kills
    deaths := b.deaths + c.deaths
    assists := b.assists + c.assists
    cs := b.cs + c.cs
    gold_share := b.gold_share ++ [gs]
    damage_dealt_to_champions_share := b.damage_dealt_to_champions_share ++ [ds]
    damage_taken_share := b.damage_taken_share ++ [dts]
    vision_score_share := b.vision_score_share ++ [vss]
    kill_participation := b.kill_participation ++ [kp] }

/-- The body of the collection loop of src/main.py lines 266-295 for a single
roster entry: when the entry is the target player, update that champion's
bucket, appending the five per-match shares; Python's ZeroDivisionError on a
zero team total aborts the run. -/
def collectOne (puuid : String) (winingTeam pt : Nat)
    (team_gold team_ddc team_dt team_vs team_kills : Nat)
    (tmp : List (String × ChampBucket)) (s : Summoner) :
    Except String (List (String × ChampBucket)) :=
  if s.puuid = puuid then do
    let gs ← divQ s.champion.gold team_gold
    let ds ← divQ s.champion.damage_dealt_to_champions team_ddc
    let dts ← divQ s.champion.damage_taken team_dt
    let vss ← divQ s.champion.vision_score team_vs
    let kp ← divQ (s.champion.kills + s.champion.assists) team_kills
    .ok (tmpUpdate tmp s.champion.name (bucketAdd winingTeam pt s.champion gs ds dts vss kp))
  else .ok tmp

/-- The window-bound recording at the top of the loop body
(src/main.py lines 219-223): the first match's start time becomes end_time,
the last match's start time becomes start_time, before any filter runs. -/
def windowUpd (n i : Nat) (st : LoopState) (m : MatchData) : LoopState :=
  let st1 := if i = 0 then { st with end_time := some m.start_time } else st
  if i = n - 1 then { st1 with start_time := some m.start_time } else st1

/-- One iteration of the per-match loop of get_match_stats
(src/main.py lines 215-295) on the already-formatted match m, where i is the
enumerate index and n the length of match_ids: record the window bounds,
apply the early-surrender filter (duration at most 5), scan the rosters for
the target player (an unassigned puuid_team is Python's UnboundLocalError),
compute the five team totals, apply the degenerate-match filter, then count
the match and collect the target player's champion stats. -/
def stepMatch (puuid : String) (n i : Nat) (st : LoopState) (m : MatchData) :
    Except String LoopState :=
  let st2 := windowUpd n i st m
  if m.duration ≤ 5 then .ok st2
  else
    match findTeam m puuid st2.puuid_team with
    | none => .error "UnboundLocalError"
    | some pt =>
      let team := m.teams.getD pt []
      let team_gold := teamSum (fun c => c.gold) team
      let team_ddc := teamSum (fun c => c.damage_dealt_to_champions) team
      let team_dt := teamSum (fun c => c.damage_taken) team
      let team_vs := teamSum (fun c => c.vision_score) team
      let team_kills := teamSum (fun c => c.kills) team
      if team_ddc = 0 ∨ team_dt = 0 ∨ team_vs = 0 ∨ team_kills = 0 then
        .ok { st2 with puuid_team := some pt }
      else do
        let tmp2 ← team.foldlM
          (collectOne puuid m.wining_team pt team_gold team_ddc team_dt team_vs team_kills)
          st2.tmp
        .ok { st2 with puuid_team := some pt,
                       valid_matches := st2.valid_matches + 1, tmp := tmp2 }

/-- The per-match loop, iterating stepMatch over the remaining match ids with
running enumerate index i; env is the composite of get_match_data and
format_match_data. -/
def runLoopAux (env : String → MatchData) (puuid : String) (n : Nat) :
    Nat → LoopState → List String → Except String LoopState
  | _, st, [] => .ok st
  | i, st, mid :: rest => do
    let st2 ← stepMatch puuid n i st (env mid)
    runLoopAux env puuid n (i + 1) st2 rest

/-- The whole per-match loop of get_match_stats started on the full id list. -/
def runLoop (env : String → MatchData) (puuid : String) (match_ids : List String) :
    Except String LoopState :=
  runLoopAux env puuid match_ids.length 0 initState match_ids

/-- One finalized per-champion record of the output
(src/main.py lines 310-341). -/
structure ChampEntry where
  wins : Nat
  «matches» : Nat
  win_rate : ℚ
  avg_kills : ℚ
  avg_deaths : ℚ
  avg_assists : ℚ
  avg_cs : ℚ
  avg_gold_share : ℚ
  avg_damage_dealt_to_champions_share : ℚ
  avg_damage_taken_share : ℚ
  avg_vision_score_share : ℚ
  avg_kill_participation : ℚ
  deriving DecidableEq, Repr

/-- Finalization of one champion bucket (src/main.py lines 310-341):
win rate and the per-match averages, each rounded to two decimal places,
with Python's ZeroDivisionError when a denominator is zero. -/
def finalizeBucket (b : ChampBucket) : Except String ChampEntry := do
  let wr ← divQ b.wins b.«matches»
  let ak ← divQ b.kills b.«matches»
  let ad ← divQ b.deaths b.«matches»
  let aa ← divQ b.assists b.«matches»
  let ac ← divQ b.cs b.«matches»
  let ags ← divQl (pySum b.gold_share) b.gold_share.length
  let addc ← divQl (pySum b.damage_dealt_to_champions_share)
    b.damage_dealt_to_champions_share.length
  let adt ← divQl (pySum b.damage_taken_share) b.damage_taken_share.length
  let avs ← divQl (pySum b.vision_score_share) b.vision_score_share.length
  let akp ← divQl (pySum b.kill_participation) b.kill_participation.length
  .ok { wins := b.wins, «matches» := b.«matches»,
        win_rate := round2 wr, avg_kills := round2 ak, avg_deaths := round2 ad,
        avg_assists := round2 aa, avg_cs := round2 ac,
        avg_gold_share := round2 ags,
        avg_damage_dealt_to_champions_share := round2 addc,
        avg_damage_taken_share := round2 adt,
        avg_vision_score_share := round2 avs,
        avg_kill_participation := round2 akp }

/-- The descending comparison used by the final sort
(src/main.py lines 343-350): a may precede b when the key pair
(matches, wins) of b is lexicographically at most that of a. -/
def champGe (a b : String × ChampEntry) : Bool :=
  decide (b.2.«matches» < a.2.«matches» ∨
    (b.2.«matches» = a.2.«matches» ∧ b.2.wins ≤ a.2.wins))

/-- Stable descending insertion: a goes in front of the first element it
compares greater-or-equal to, so equal keys keep their original order,
matching Python sorted with reverse set. -/
def insertDesc (a : String × ChampEntry) :
    List (String × ChampEntry) → List (String × ChampEntry)
  | [] => [a]
  | b :: t => if champGe a b then a :: b :: t else b :: insertDesc a t

/-- The final sort of the champions mapping (src/main.py lines 343-350):
a stable sort, descending by the key pair (matches, wins). -/
def sortChamps (l : List (String × ChampEntry)) : List (String × ChampEntry) :=
  l.foldr insertDesc []

/-- The top-level output dictionary of get_match_stats
(src/main.py lines 298-351): the metadata fields inlined, plus the ordered
champions mapping as an association list in its iteration order. -/
structure MatchStats where
  name : String
  rank : String
  start_time : String
  end_time : String
  unique_champions : Nat
  «matches» : Nat
  champions : List (String × ChampEntry)
  deriving DecidableEq, Repr

/-- Embeds get_match_stats (src/main.py lines 194-351): run the per-match
loop, then build the metadata block (reading the window locals start_time and
end_time raises UnboundLocalError when they were never assigned), finalize
every champion bucket in insertion order, and sort the champions mapping. -/
def get_match_stats (env : String → MatchData) (summoner_name summoner_rank : String)
    (puuid : String) (match_ids : List String) : Except String MatchStats := do
  let st ← runLoop env puuid match_ids
  match st.start_time, st.end_time with
  | some s, some e => do
    let champs ← st.tmp.mapM (fun p => do
      let entry ← finalizeBucket p.2
      Except.ok (p.1, entry))
    .ok { name := summoner_name, rank := summoner_rank,
          start_time := s, end_time := e,
          unique_champions := st.tmp.length,
          «matches» := st.valid_matches,
          champions := sortChamps champs }
  | _, _ => .error "UnboundLocalError"

/-- One match known to the upstream match service: its identifier and the
raw info.gameStartTimestamp in milliseconds that get_match_data would
return for it. -/
structure UpstreamMatch where
  id : String
  gameStartTimestamp : Nat
  deriving DecidableEq, Repr

/-- Start time of an upstream match in epoch seconds, as get_match_ids
computes it (src/main.py lines 103-106): the millisecond timestamp floor
divided by 1000. -/
def tsSec (m : UpstreamMatch) : Nat := m.gameStartTimestamp / 1000

/-- Modelled from the spec: the match-listing collaborator of section 6
(list_match_ids), which is not part of src/.  Applied to the service state
svc (the player's ranked matches in the order the service reports them,
newest first), it returns the matches whose start time in epoch seconds lies
in the inclusive startTime / exclusive endTime window, capped at the page
size of 100 that src/main.py line 95 requests, in service order. -/
def listIds (svc : List UpstreamMatch) (startTime : Nat) (endTime : Option Nat) :
    List UpstreamMatch :=
  (svc.filter (fun m =>
    decide (startTime ≤ tsSec m) &&
    match endTime with
    | none => true
    | some e => decide (tsSec m < e))).take 100

/-- The pagination loop of get_match_ids (src/main.py lines 108-123): while
the oldest seen start time is still after the one-year cutoff, re-query with
the window's end bound rolled back to that start time; an empty batch breaks
the loop, a non-empty batch is appended and its last (oldest) element's
start time becomes the next end bound. -/
def fetchLoop (svc : List UpstreamMatch) (cutoff : Nat) (last : Nat) :
    List UpstreamMatch :=
  if cutoff < last then
    let batch := listIds svc cutoff (some last)
    if hb : batch = [] then []
    else batch ++ fetchLoop svc cutoff (tsSec (batch.getLast hb))
  else []
termination_by last
decreasing_by
  have hm : batch.getLast hb ∈ batch := List.getLast_mem hb
  have hm2 : batch.getLast hb ∈ svc.filter (fun m =>
      decide (cutoff ≤ tsSec m) && decide (tsSec m < last)) := by
    simpa [listIds] using List.take_subset 100 _ hm
  have := (List.mem_filter.mp hm2).2
  simp only [Bool.and_eq_true, decide_eq_true_eq] at this
  exact this.2

/-- Embeds get_match_ids (src/main.py lines 91-125) against the service
model, accumulating the listed match records rather than their bare ids
(the source reads the oldest element's start time back through
get_match_data; keeping the records and projecting to ids at the end is
observationally the same): the initial request bounded only below at the
cutoff, then the pagination loop, empty first batch short-circuiting. -/
def get_match_matches (svc : List UpstreamMatch) (cutoff : Nat) :
    List UpstreamMatch :=
  let batch := listIds svc cutoff none
  if hb : batch = [] then []
  else batch ++ fetchLoop svc cutoff (tsSec (batch.getLast hb))

/-- The id list returned by get_match_ids (src/main.py line 125). -/
def get_match_ids (svc : List UpstreamMatch) (cutoff : Nat) : List String :=
  (get_match_matches svc cutoff).map (fun m => m.id)

/-!
Concrete environments used by the closed theorems and witnesses below.
-/

/-- Champion line of the target player in the one-game happy-path run:
1/2/0, 100 gold, 7 cs, vision 4, 50 damage to champions, 60 damage taken. -/
def champW : Champion :=
  { name := "Ahri", kills := 1, deaths := 2, assists := 0, gold := 100, cs := 7,
    vision_score := 4, damage_dealt_to_champions := 50, damage_taken := 60 }

/-- A qualifying 20-minute match with the target player p alone on team 0,
which wins. -/
def matchW : MatchData :=
  { start_time := "2025-01-02 10:00:00 UTC", duration := 20, wining_team := 0,
    teams := [[{ puuid := "p", champion := champW }], []] }

/-- Environment serving matchW for every match id. -/
def envW : String → MatchData := fun _ => matchW

/-- The loop state left by runLoop on envW with the single id m1. -/
def stW : LoopState :=
  { tmp := [("Ahri",
      { wins := 1, «matches» := 1, kills := 1, deaths := 2, assists := 0, cs := 7,
        gold_share := [((100:ℕ):ℚ)/((100:ℕ):ℚ)],
        damage_dealt_to_champions_share := [((50:ℕ):ℚ)/((50:ℕ):ℚ)],
        damage_taken_share := [((60:ℕ):ℚ)/((60:ℕ):ℚ)],
        vision_score_share := [((4:ℕ):ℚ)/((4:ℕ):ℚ)],
        kill_participation := [((1:ℕ):ℚ)/((1:ℕ):ℚ)] })],
    valid_matches := 1,
    start_time := some "2025-01-02 10:00:00 UTC",
    end_time := some "2025-01-02 10:00:00 UTC",
    puuid_team := some 0 }

/-- The full aggregate returned by get_match_stats on envW with the single
id m1. -/
def resW : MatchStats :=
  { name := "AD KING#LYON", rank := "GOLD II",
    start_time := "2025-01-02 10:00:00 UTC",
    end_time := "2025-01-02 10:00:00 UTC",
    unique_champions := 1, «matches» := 1,
    champions := [("Ahri",
      { wins := 1, «matches» := 1,
        win_rate := round2 (((1:ℕ):ℚ)/((1:ℕ):ℚ)),
        avg_kills := round2 (((1:ℕ):ℚ)/((1:ℕ):ℚ)),
        avg_deaths := round2 (((2:ℕ):ℚ)/((1:ℕ):ℚ)),
        avg_assists := round2 (((0:ℕ):ℚ)/((1:ℕ):ℚ)),
        avg_cs := round2 (((7:ℕ):ℚ)/((1:ℕ):ℚ)),
        avg_gold_share := round2 (pySum [((100:ℕ):ℚ)/((100:ℕ):ℚ)] / ((1:ℕ):ℚ)),
        avg_damage_dealt_to_champions_share :=
          round2 (pySum [((50:ℕ):ℚ)/((50:ℕ):ℚ)] / ((1:ℕ):ℚ)),
        avg_damage_taken_share := round2 (pySum [((60:ℕ):ℚ)/((60:ℕ):ℚ)] / ((1:ℕ):ℚ)),
        avg_vision_score_share := round2 (pySum [((4:ℕ):ℚ)/((4:ℕ):ℚ)] / ((1:ℕ):ℚ)),
        avg_kill_participation := round2 (pySum [((1:ℕ):ℚ)/((1:ℕ):ℚ)] / ((1:ℕ):ℚ)) })] }

/-- A qualifying match in which every member of the target player's team has
zero gold while the four totals checked by the degenerate-match filter are
all nonzero. -/
def matchZeroGold : MatchData :=
  { start_time := "t0", duration := 20, wining_team := 0,
    teams := [[{ puuid := "p", champion :=
      { name := "Ahri", kills := 1, deaths := 0, assists := 0, gold := 0, cs := 0,
        vision_score := 4, damage_dealt_to_champions := 50, damage_taken := 60 } }],
      []] }

/-- Environment serving matchZeroGold for every match id. -/
def envZeroGold : String → MatchData := fun _ => matchZeroGold

/-- A teammate champion line with every counter nonzero. -/
def mateChamp : Champion :=
  { name := "Lux", kills := 1, deaths := 1, assists := 1, gold := 10, cs := 1,
    vision_score := 2, damage_dealt_to_champions := 5, damage_taken := 6 }

/-- First stale-index match: the target player p sits on team 1, which wins. -/
def matchStale1 : MatchData :=
  { start_time := "t1", duration := 20, wining_team := 1,
    teams := [[], [{ puuid := "p", champion := champW }]] }

/-- Second stale-index match: the target player is on neither roster; team 1
(the roster the stale index selects) has all four filtered totals nonzero. -/
def matchStale2 : MatchData :=
  { start_time := "t2", duration := 20, wining_team := 0,
    teams := [[], [{ puuid := "q", champion := mateChamp }]] }

/-- Environment serving matchStale1 as m1 and matchStale2 otherwise. -/
def envStale : String → MatchData :=
  fun mid => if mid = "m1" then matchStale1 else matchStale2

/-- A qualifying match with both rosters missing the target player. -/
def matchAbsent : MatchData :=
  { start_time := "t3", duration := 20, wining_team := 0, teams := [[], []] }

/-- Environment serving matchAbsent for every match id. -/
def envAbsent : String → MatchData := fun _ => matchAbsent

/-- A 3-minute match, caught by the early-surrender filter. -/
def matchShort : MatchData :=
  { start_time := "t4", duration := 3, wining_team := 0,
    teams := [[{ puuid := "p", champion := champW }], []] }

/-- Preservation condition for one qualifying match m: the per-champion
bucket update preserves Q for every roster selection pt, every target-player
entry of that roster, and every successfully computed share set. -/
def StepPreserves (Q : ChampBucket → Prop) (puuid : String) (m : MatchData) : Prop :=
  ∀ pt (s : Summoner), s ∈ m.teams.getD pt [] → s.puuid = puuid →
    ∀ (gs ds dts vss kp : ℚ),
    divQ s.champion.gold
      (teamSum (fun c => c.gold) (m.teams.getD pt [])) = .ok gs →
    divQ s.champion.damage_dealt_to_champions
      (teamSum (fun c => c.damage_dealt_to_champions) (m.teams.getD pt [])) = .ok ds →
    divQ s.champion.damage_taken
      (teamSum (fun c => c.damage_taken) (m.teams.getD pt [])) = .ok dts →
    divQ s.champion.vision_score
      (teamSum (fun c => c.vision_score) (m.teams.getD pt [])) = .ok vss →
    divQ (s.champion.kills + s.champion.assists)
      (teamSum (fun c => c.kills) (m.teams.getD pt [])) = .ok kp →
    ∀ b, Q b → Q (bucketAdd m.wining_team pt s.champion gs ds dts vss kp b)

/-- All five share lists of a bucket hold only values of the closed unit
interval. -/
def sharesOk (b : ChampBucket) : Prop :=
  (∀ q ∈ b.gold_share, 0 ≤ q ∧ q ≤ 1) ∧
  (∀ q ∈ b.damage_dealt_to_champions_share, 0 ≤ q ∧ q ≤ 1) ∧
  (∀ q ∈ b.damage_taken_share, 0 ≤ q ∧ q ≤ 1) ∧
  (∀ q ∈ b.vision_score_share, 0 ≤ q ∧ q ≤ 1) ∧
  (∀ q ∈ b.kill_participation, 0 ≤ q ∧ q ≤ 1)

/-- The four roster-total share lists of a bucket hold only values of the
closed unit interval, and the kill-participation list only nonnegative
values (no upper bound). -/
def rosterSharesOk (b : ChampBucket) : Prop :=
  (∀ q ∈ b.gold_share, 0 ≤ q ∧ q ≤ 1) ∧
  (∀ q ∈ b.damage_dealt_to_champions_share, 0 ≤ q ∧ q ≤ 1) ∧
  (∀ q ∈ b.damage_taken_share, 0 ≤ q ∧ q ≤ 1) ∧
  (∀ q ∈ b.vision_score_share, 0 ≤ q ∧ q ≤ 1) ∧
  (∀ q ∈ b.kill_participation, 0 ≤ q)

/-- The side condition the code does not enforce: within every roster of m,
any entry of the target player has kills plus assists at most the roster's
total kills. -/
def kpBounded (puuid : String) (m : MatchData) : Prop :=
  ∀ team ∈ m.teams, ∀ s ∈ team, s.puuid = puuid →
    s.champion.kills + s.champion.assists ≤ teamSum (fun c => c.kills) team

instance (puuid : String) (m : MatchData) : Decidable (kpBounded puuid m) := by
  unfold kpBounded
  infer_instance

/-- Counterexample match for the literal C1: the target player has 0 kills
and 2 assists while the selected roster's kill total is 1, so the appended
kill participation is 2; the match passes both filters. -/
def matchKP : MatchData :=
  { start_time := "t5", duration := 20, wining_team := 0,
    teams := [[{ puuid := "p", champion :=
        { name := "Ahri", kills := 0, deaths := 0, assists := 2, gold := 10,
          cs := 0, vision_score := 1, damage_dealt_to_champions := 5,
          damage_taken := 5 } },
      { puuid := "q", champion := mateChamp }], []] }

/-- Environment serving matchKP for every match id. -/
def envKP : String → MatchData := fun _ => matchKP

/-- Newest-first ordering of a service or result list: every later element
starts no later than every earlier one. -/
def newestFirst (l : List UpstreamMatch) : Prop :=
  l.Pairwise (fun a b => b.gameStartTimestamp ≤ a.gameStartTimestamp)

instance (l : List UpstreamMatch) : Decidable (newestFirst l) := by
  unfold newestFirst
  infer_instance

/-- A three-match service state, newest first, all inside the window. -/
def svcW : List UpstreamMatch :=
  [{ id := "a1", gameStartTimestamp := 3000000 },
   { id := "a2", gameStartTimestamp := 2000000 },
   { id := "a3", gameStartTimestamp := 1000000 }]

/-!
Claim theorems for the directly computational claims.
-/

/-- C8: when the rank service returns no entries get_summoner_rank returns
the empty string rather than raising, and on a non-empty response it returns
the tier and division of the first entry joined by a space. -/
theorem C8_rank_empty_or_first :
    get_summoner_rank [] = "" ∧
    ∀ (e : RankEntry) (es : List RankEntry),
      get_summoner_rank (e :: es) = e.tier ++ " " ++ e.rank :=
  ⟨rfl, fun _ _ => rfl⟩

/-- C3: on the empty input list the per-match loop never assigns the window
locals start_time and end_time, so building the metadata block hits an
unbound reference and get_match_stats produces an error, not an aggregate. -/
theorem C3_empty_input_fails (env : String → MatchData)
    (summoner_name summoner_rank puuid : String) :
    get_match_stats env summoner_name summoner_rank puuid [] =
      .error "UnboundLocalError" := rfl

/-- C9: the degenerate-match filter does not check the team gold total, and
on a match that passes both filters with a zero team gold total the
gold-share division raises ZeroDivisionError, aborting get_match_stats. -/
theorem C9_zero_team_gold_division_error :
    get_match_stats envZeroGold "n" "r" "p" ["m1"] =
      .error "ZeroDivisionError" := rfl

/-- C10: the team index is only assigned when the target player is found on
a roster.  First conjunct: with the player on team 1 of the first match and
absent from the second, the second match is still processed against the
stale index (the run succeeds, counts 2 qualifying matches, but only the
first match's champion appears).  Second conjunct: when the player is absent
from the first unfiltered match, no previous assignment exists and the run
fails on the unbound variable. -/
theorem C10_stale_team_reuse_and_unbound :
    ((get_match_stats envStale "n" "r" "p" ["m1", "m2"]).toOption.map
      (fun res => (res.«matches», res.champions.map (fun p => p.1)))) =
        some (2, ["Ahri"]) ∧
    get_match_stats envAbsent "n" "r" "p" ["m0"] = .error "UnboundLocalError" :=
  ⟨rfl, rfl⟩

/-- Recording the window bounds touches no other component of the state. -/
lemma windowUpd_tmp (n i : Nat) (st : LoopState) (m : MatchData) :
    (windowUpd n i st m).tmp = st.tmp := by
  unfold windowUpd
  dsimp only
  split <;> split <;> rfl

/-- Recording the window bounds keeps the qualifying-match counter. -/
lemma windowUpd_valid_matches (n i : Nat) (st : LoopState) (m : MatchData) :
    (windowUpd n i st m).valid_matches = st.valid_matches := by
  unfold windowUpd
  dsimp only
  split <;> split <;> rfl

/-- Recording the window bounds keeps the team-index local. -/
lemma windowUpd_puuid_team (n i : Nat) (st : LoopState) (m : MatchData) :
    (windowUpd n i st m).puuid_team = st.puuid_team := by
  unfold windowUpd
  dsimp only
  split <;> split <;> rfl

/-- The end bound after recording: set on the first match, kept otherwise. -/
lemma windowUpd_end_time (n i : Nat) (st : LoopState) (m : MatchData) :
    (windowUpd n i st m).end_time =
      if i = 0 then some m.start_time else st.end_time := by
  unfold windowUpd
  by_cases h0 : i = 0
  · simp only [if_pos h0]
    split <;> rfl
  · simp only [if_neg h0]
    split <;> rfl

/-- The start bound after recording: set on the last match, kept otherwise. -/
lemma windowUpd_start_time (n i : Nat) (st : LoopState) (m : MatchData) :
    (windowUpd n i st m).start_time =
      if i = n - 1 then some m.start_time else st.start_time := by
  unfold windowUpd
  by_cases h1 : i = n - 1
  · simp only [if_pos h1]
  · simp only [if_neg h1]
    split <;> rfl

/-- C4: a match whose normalized duration is at most 5 minutes is skipped
entirely by the per-match loop: the champion buckets, the qualifying-match
counter and the team-index local are all left untouched (only the window
bounds may be recorded, which happens before the filter). -/
theorem C4_short_match_skipped (puuid : String) (n i : Nat) (st : LoopState)
    (m : MatchData) (h : m.duration ≤ 5) :
    ∃ st2, stepMatch puuid n i st m = .ok st2 ∧
      st2.tmp = st.tmp ∧ st2.valid_matches = st.valid_matches ∧
      st2.puuid_team = st.puuid_team := by
  unfold stepMatch
  dsimp only
  rw [if_pos h]
  exact ⟨windowUpd n i st m, rfl, windowUpd_tmp n i st m,
    windowUpd_valid_matches n i st m, windowUpd_puuid_team n i st m⟩

/-- Witness for C4 at a concrete 3-minute match. -/
theorem C4_short_match_skipped_witness :
    matchShort.duration ≤ 5 ∧
    ∃ st2, stepMatch "p" 1 0 initState matchShort = .ok st2 ∧
      st2.tmp = initState.tmp ∧ st2.valid_matches = initState.valid_matches ∧
      st2.puuid_team = initState.puuid_team :=
  ⟨by decide, C4_short_match_skipped "p" 1 0 initState matchShort (by decide)⟩

/-!
Inversion and preservation infrastructure for the loop invariants.
-/

/-- Inversion of a successful Except bind. -/
lemma except_bind_ok {α β : Type} {x : Except String α} {f : α → Except String β}
    {b : β} (h : x >>= f = .ok b) : ∃ a, x = .ok a ∧ f a = .ok b := by
  cases x with
  | error e => simp [Bind.bind, Except.bind] at h
  | ok a => exact ⟨a, rfl, by simpa [Bind.bind, Except.bind] using h⟩

/-- Inversion of a successful guarded integer division. -/
lemma divQ_ok {a b : ℕ} {q : ℚ} (h : divQ a b = .ok q) :
    b ≠ 0 ∧ q = (a : ℚ) / (b : ℚ) := by
  unfold divQ at h
  split at h
  · simp at h
  · exact ⟨by assumption, by injection h with h; exact h.symm⟩

/-- Inversion of a successful guarded division by a length. -/
lemma divQl_ok {x : ℚ} {n : ℕ} {q : ℚ} (h : divQl x n = .ok q) :
    n ≠ 0 ∧ q = x / (n : ℚ) := by
  unfold divQl at h
  split at h
  · simp at h
  · exact ⟨by assumption, by injection h with h; exact h.symm⟩

/-- A predicate preserved by every successful step of a fold over Except is
preserved by the whole fold. -/
lemma foldlM_inv {α σ : Type} {P : σ → Prop} {f : σ → α → Except String σ} :
    ∀ (l : List α) (init : σ),
      (∀ s a, a ∈ l → P s → ∀ s2, f s a = .ok s2 → P s2) →
      P init → ∀ out, l.foldlM f init = .ok out → P out := by
  intro l
  induction l with
  | nil =>
    intro init _ hi out h
    rw [List.foldlM_nil] at h
    injection h with h
    exact h ▸ hi
  | cons a t ih =>
    intro init hstep hi out h
    rw [List.foldlM_cons] at h
    obtain ⟨mid, hmid, hrest⟩ := except_bind_ok h
    exact ih mid (fun s x hx => hstep s x (List.mem_cons_of_mem _ hx))
      (hstep init a (List.mem_cons_self _ _) hi mid hmid) out hrest

/-- Shifting the accumulator out of the team-total fold. -/
lemma teamSum_shift (f : Champion → Nat) (team : List Summoner) :
    ∀ a : Nat, team.foldl (fun acc s => acc + f s.champion) a = a + teamSum f team := by
  induction team with
  | nil => intro a; simp [teamSum]
  | cons s t ih =>
    intro a
    simp only [teamSum, List.foldl_cons] at ih ⊢
    rw [ih (a + f s.champion), ih (0 + f s.champion)]
    omega

/-- Team total over a non-empty roster. -/
lemma teamSum_cons (f : Champion → Nat) (a : Summoner) (t : List Summoner) :
    teamSum f (a :: t) = f a.champion + teamSum f t := by
  show List.foldl _ 0 (a :: t) = _
  rw [List.foldl_cons, teamSum_shift f t (0 + f a.champion)]
  omega

/-- Every roster member's counter is at most the team total. -/
lemma le_teamSum (f : Champion → Nat) {team : List Summoner} {s : Summoner}
    (hs : s ∈ team) : f s.champion ≤ teamSum f team := by
  induction team with
  | nil => cases hs
  | cons a t ih =>
    rw [teamSum_cons]
    rcases List.mem_cons.mp hs with h | h
    · subst h; omega
    · have := ih h; omega

/-- Bucket-wise invariants survive a defaultdict update whose update
function preserves them. -/
lemma tmpUpdate_inv {Q : ChampBucket → Prop} {tmp : List (String × ChampBucket)}
    {k : String} {f : ChampBucket → ChampBucket}
    (htmp : ∀ p ∈ tmp, Q p.2) (hinit : Q bucketInit)
    (hf : ∀ b, Q b → Q (f b)) : ∀ p ∈ tmpUpdate tmp k f, Q p.2 := by
  intro p hp
  unfold tmpUpdate at hp
  split at hp
  · obtain ⟨q, hq, hpq⟩ := List.mem_map.mp hp
    by_cases hqk : q.1 = k
    · rw [if_pos hqk] at hpq; subst hpq; exact hf _ (htmp q hq)
    · rw [if_neg hqk] at hpq; subst hpq; exact htmp q hq
  · rcases List.mem_append.mp hp with h | h
    · exact htmp p h
    · rw [List.mem_singleton.mp h]; exact hf _ hinit

/-- Bucket-wise invariants survive one collection step. -/
lemma collectOne_inv {Q : ChampBucket → Prop}
    {puuid : String} {winingTeam pt : Nat} {tg td dt vs tk : Nat}
    {tmp tmp2 : List (String × ChampBucket)} {s : Summoner}
    (hinit : Q bucketInit) (htmp : ∀ p ∈ tmp, Q p.2)
    (hupd : s.puuid = puuid → ∀ (gs ds dts vss kp : ℚ),
        divQ s.champion.gold tg = .ok gs →
        divQ s.champion.damage_dealt_to_champions td = .ok ds →
        divQ s.champion.damage_taken dt = .ok dts →
        divQ s.champion.vision_score vs = .ok vss →
        divQ (s.champion.kills + s.champion.assists) tk = .ok kp →
        ∀ b, Q b → Q (bucketAdd winingTeam pt s.champion gs ds dts vss kp b))
    (h : collectOne puuid winingTeam pt tg td dt vs tk tmp s = .ok tmp2) :
    ∀ p ∈ tmp2, Q p.2 := by
  unfold collectOne at h
  split at h
  case isTrue hpu =>
    obtain ⟨gs, hgs, h⟩ := except_bind_ok h
    obtain ⟨ds, hds, h⟩ := except_bind_ok h
    obtain ⟨dts, hdts, h⟩ := except_bind_ok h
    obtain ⟨vss, hvss, h⟩ := except_bind_ok h
    obtain ⟨kp, hkp, h⟩ := except_bind_ok h
    injection h with h
    subst h
    exact tmpUpdate_inv htmp hinit (hupd hpu gs ds dts vss kp hgs hds hdts hvss hkp)
  case isFalse =>
    injection h with h
    subst h
    exact htmp

/-- A bucket-wise invariant is preserved by one iteration of the per-match
loop. -/
lemma stepMatch_inv {Q : ChampBucket → Prop} (hinit : Q bucketInit)
    {puuid : String} {n i : Nat} {st st2 : LoopState} {m : MatchData}
    (h : stepMatch puuid n i st m = .ok st2)
    (htmp : ∀ p ∈ st.tmp, Q p.2)
    (hupd : StepPreserves Q puuid m) :
    ∀ p ∈ st2.tmp, Q p.2 := by
  unfold stepMatch at h
  dsimp only at h
  split at h
  · injection h with h
    subst h
    rw [windowUpd_tmp]
    exact htmp
  · split at h
    · simp at h
    · rename_i pt hpt
      split at h
      · injection h with h
        subst h
        intro p hp
        rw [show ({ windowUpd n i st m with puuid_team := some pt } : LoopState).tmp =
          (windowUpd n i st m).tmp from rfl, windowUpd_tmp] at hp
        exact htmp p hp
      · obtain ⟨tmp2, hfold, h⟩ := except_bind_ok h
        injection h with h
        subst h
        rw [windowUpd_tmp] at hfold
        refine foldlM_inv (P := fun tmp => ∀ p ∈ tmp, Q p.2) _ _ ?_ htmp tmp2 hfold
        intro s a ha hQ s2 hc
        refine collectOne_inv hinit hQ ?_ hc
        intro hpu gs ds dts vss kp hgs hds hdts hvss hkp
        exact hupd pt a ha hpu gs ds dts vss kp hgs hds hdts hvss hkp

/-- A bucket-wise invariant carried across the whole per-match loop. -/
lemma runLoopAux_inv {Q : ChampBucket → Prop} (hinit : Q bucketInit)
    {env : String → MatchData} {puuid : String} {n : Nat} :
    ∀ (ids : List String) (i : Nat) (st : LoopState),
      (∀ mid ∈ ids, StepPreserves Q puuid (env mid)) →
      (∀ p ∈ st.tmp, Q p.2) →
      ∀ st2, runLoopAux env puuid n i st ids = .ok st2 → ∀ p ∈ st2.tmp, Q p.2 := by
  intro ids
  induction ids with
  | nil =>
    intro i st _ hst st2 h
    simp only [runLoopAux] at h
    injection h with h
    exact h ▸ hst
  | cons a t ih =>
    intro i st hstep hst st2 h
    simp only [runLoopAux] at h
    obtain ⟨stmid, hmid, hrest⟩ := except_bind_ok h
    exact ih (i + 1) stmid (fun mid hm => hstep mid (List.mem_cons_of_mem _ hm))
      (stepMatch_inv hinit hmid hst (hstep a (List.mem_cons_self _ _))) st2 hrest

/-- A ratio of a part over a nonzero total lies in the unit interval. -/
lemma div_share_bounds {a b : ℕ} (hab : a ≤ b) (hb : b ≠ 0) :
    0 ≤ (a : ℚ) / (b : ℚ) ∧ (a : ℚ) / (b : ℚ) ≤ 1 := by
  have hbpos : (0 : ℚ) < (b : ℚ) := by exact_mod_cast Nat.pos_of_ne_zero hb
  refine ⟨div_nonneg (by positivity) (le_of_lt hbpos), ?_⟩
  rw [div_le_one hbpos]
  exact_mod_cast hab

/-- Unconditionally, the qualifying-match bucket update appends roster-total
shares lying in [0, 1] and a nonnegative kill participation: each of the
four ratios divides one roster member's counter by the same roster's sum. -/
lemma stepPreserves_rosterShares (puuid : String) (m : MatchData) :
    StepPreserves rosterSharesOk puuid m := by
  intro pt s hs hpu gs ds dts vss kp hgs hds hdts hvss hkp' b hb
  obtain ⟨hgne, rfl⟩ := divQ_ok hgs
  obtain ⟨hdne, rfl⟩ := divQ_ok hds
  obtain ⟨hdtne, rfl⟩ := divQ_ok hdts
  obtain ⟨hvne, rfl⟩ := divQ_ok hvss
  obtain ⟨hkne, rfl⟩ := divQ_ok hkp'
  obtain ⟨hb1, hb2, hb3, hb4, hb5⟩ := hb
  unfold rosterSharesOk bucketAdd
  refine ⟨?_, ?_, ?_, ?_, ?_⟩ <;> intro q hq <;> dsimp only at hq
  · rcases List.mem_append.mp hq with hmem | hmem
    · exact hb1 q hmem
    · rw [List.mem_singleton.mp hmem]
      exact div_share_bounds (le_teamSum _ hs) hgne
  · rcases List.mem_append.mp hq with hmem | hmem
    · exact hb2 q hmem
    · rw [List.mem_singleton.mp hmem]
      exact div_share_bounds (le_teamSum _ hs) hdne
  · rcases List.mem_append.mp hq with hmem | hmem
    · exact hb3 q hmem
    · rw [List.mem_singleton.mp hmem]
      exact div_share_bounds (le_teamSum _ hs) hdtne
  · rcases List.mem_append.mp hq with hmem | hmem
    · exact hb4 q hmem
    · rw [List.mem_singleton.mp hmem]
      exact div_share_bounds (le_teamSum _ hs) hvne
  · rcases List.mem_append.mp hq with hmem | hmem
    · exact hb5 q hmem
    · rw [List.mem_singleton.mp hmem]
      exact div_nonneg (Nat.cast_nonneg _) (Nat.cast_nonneg _)

/-- Under the kills-plus-assists side condition on match m, the bucket
update keeps all five shares, kill participation included, inside [0, 1]. -/
lemma stepPreserves_sharesOk {puuid : String} {m : MatchData}
    (hkp : kpBounded puuid m) : StepPreserves sharesOk puuid m := by
  intro pt s hs hpu gs ds dts vss kp hgs hds hdts hvss hkp' b hb
  obtain ⟨hgne, rfl⟩ := divQ_ok hgs
  obtain ⟨hdne, rfl⟩ := divQ_ok hds
  obtain ⟨hdtne, rfl⟩ := divQ_ok hdts
  obtain ⟨hvne, rfl⟩ := divQ_ok hvss
  obtain ⟨hkne, rfl⟩ := divQ_ok hkp'
  have hkpnum : s.champion.kills + s.champion.assists ≤
      teamSum (fun c => c.kills) (m.teams.getD pt []) := by
    by_cases hlen : pt < m.teams.length
    · have hmem : m.teams.getD pt [] ∈ m.teams := by
        rw [List.getD_eq_getElem _ _ hlen]
        exact List.getElem_mem hlen
      exact hkp _ hmem s hs hpu
    · rw [List.getD_eq_default _ _ (Nat.le_of_not_lt hlen)] at hs
      cases hs
  obtain ⟨hb1, hb2, hb3, hb4, hb5⟩ := hb
  unfold sharesOk bucketAdd
  refine ⟨?_, ?_, ?_, ?_, ?_⟩ <;> intro q hq <;> dsimp only at hq
  · rcases List.mem_append.mp hq with hmem | hmem
    · exact hb1 q hmem
    · rw [List.mem_singleton.mp hmem]
      exact div_share_bounds (le_teamSum _ hs) hgne
  · rcases List.mem_append.mp hq with hmem | hmem
    · exact hb2 q hmem
    · rw [List.mem_singleton.mp hmem]
      exact div_share_bounds (le_teamSum _ hs) hdne
  · rcases List.mem_append.mp hq with hmem | hmem
    · exact hb3 q hmem
    · rw [List.mem_singleton.mp hmem]
      exact div_share_bounds (le_teamSum _ hs) hdtne
  · rcases List.mem_append.mp hq with hmem | hmem
    · exact hb4 q hmem
    · rw [List.mem_singleton.mp hmem]
      exact div_share_bounds (le_teamSum _ hs) hvne
  · rcases List.mem_append.mp hq with hmem | hmem
    · exact hb5 q hmem
    · rw [List.mem_singleton.mp hmem]
      exact div_share_bounds hkpnum hkne

/-- C1 (amended): in any successful run of the per-match loop, the gold,
damage-dealt, damage-taken and vision-score shares appended to the champion
buckets lie in [0, 1] unconditionally, with kill participation at least
nonnegative; and whenever the target player's kills plus assists never exceed
the roster's total kills — a side condition the code does not check and
without which kill participation exceeds 1 on the counterexample — the
kill-participation entries lie in [0, 1] as well. -/
theorem C1_shares_in_unit_interval (env : String → MatchData) (puuid : String)
    (ids : List String) (st : LoopState)
    (h : runLoop env puuid ids = .ok st) :
    (∀ p ∈ st.tmp, rosterSharesOk p.2) ∧
    ((∀ mid ∈ ids, kpBounded puuid (env mid)) →
      ∀ p ∈ st.tmp, sharesOk p.2) := by
  constructor
  · refine runLoopAux_inv (Q := rosterSharesOk) ?_ ids 0 initState ?_ ?_ st h
    · exact ⟨fun q hq => absurd hq (List.not_mem_nil q),
        fun q hq => absurd hq (List.not_mem_nil q),
        fun q hq => absurd hq (List.not_mem_nil q),
        fun q hq => absurd hq (List.not_mem_nil q),
        fun q hq => absurd hq (List.not_mem_nil q)⟩
    · exact fun mid _ => stepPreserves_rosterShares puuid (env mid)
    · intro p hp
      cases hp
  · intro hkp
    refine runLoopAux_inv (Q := sharesOk) ?_ ids 0 initState ?_ ?_ st h
    · exact ⟨fun q hq => absurd hq (List.not_mem_nil q),
        fun q hq => absurd hq (List.not_mem_nil q),
        fun q hq => absurd hq (List.not_mem_nil q),
        fun q hq => absurd hq (List.not_mem_nil q),
        fun q hq => absurd hq (List.not_mem_nil q)⟩
    · exact fun mid hmid => stepPreserves_sharesOk (hkp mid hmid)
    · intro p hp
      cases hp

/-- Counterexample to C1 as stated: on a qualifying match (duration 20, all
four checked totals nonzero) the kill-participation value appended for the
target player is 2, which is not in [0, 1]. -/
theorem C1_counterexample :
    ((runLoop envKP "p" ["m1"]).toOption.map
      (fun st => st.tmp.map (fun p => p.2.kill_participation))) =
        some [[((2:ℕ):ℚ)/((1:ℕ):ℚ)]] ∧
    ¬ (((2:ℕ):ℚ)/((1:ℕ):ℚ) ≤ 1) := by
  refine ⟨rfl, ?_⟩
  norm_num

/-- Witness for C1 at the concrete happy-path run: the run succeeds, the
four roster shares lie in [0, 1] unconditionally, the side condition holds
there, and with it every appended share lies in [0, 1]. -/
theorem C1_shares_in_unit_interval_witness :
    runLoop envW "p" ["m1"] = .ok stW ∧
    (∀ p ∈ stW.tmp, rosterSharesOk p.2) ∧
    (∀ mid ∈ ["m1"], kpBounded "p" (envW mid)) ∧
    (∀ p ∈ stW.tmp, sharesOk p.2) :=
  ⟨rfl, (C1_shares_in_unit_interval envW "p" ["m1"] stW rfl).1,
    by decide,
    (C1_shares_in_unit_interval envW "p" ["m1"] stW rfl).2 (by decide)⟩

/-- Membership inversion for a successful mapM over Except. -/
lemma mapM_ok_mem {α β : Type} {f : α → Except String β} :
    ∀ {l : List α} {out : List β}, l.mapM f = .ok out →
      ∀ y ∈ out, ∃ x ∈ l, f x = .ok y := by
  intro l
  induction l with
  | nil =>
    intro out h y hy
    rw [List.mapM_nil] at h
    injection h with h
    subst h
    cases hy
  | cons a t ih =>
    intro out h y hy
    rw [List.mapM_cons] at h
    obtain ⟨b, hb, h⟩ := except_bind_ok h
    obtain ⟨bs, hbs, h⟩ := except_bind_ok h
    injection h with h
    subst h
    rcases List.mem_cons.mp hy with hy | hy
    · exact ⟨a, List.mem_cons_self _ _, hy ▸ hb⟩
    · obtain ⟨x, hx, hfx⟩ := ih hbs y hy
      exact ⟨x, List.mem_cons_of_mem _ hx, hfx⟩

/-- Inversion of a successful bucket finalization: the division guards were
nonzero and the leading fields are copied and rounded as written. -/
lemma finalizeBucket_ok {b : ChampBucket} {entry : ChampEntry}
    (h : finalizeBucket b = .ok entry) :
    b.«matches» ≠ 0 ∧ entry.wins = b.wins ∧ entry.«matches» = b.«matches» ∧
    entry.win_rate = round2 ((b.wins : ℚ) / (b.«matches» : ℚ)) := by
  unfold finalizeBucket at h
  obtain ⟨wr, hwr, h⟩ := except_bind_ok h
  obtain ⟨ak, hak, h⟩ := except_bind_ok h
  obtain ⟨ad, had, h⟩ := except_bind_ok h
  obtain ⟨aa, haa, h⟩ := except_bind_ok h
  obtain ⟨ac, hac, h⟩ := except_bind_ok h
  obtain ⟨ags, hags, h⟩ := except_bind_ok h
  obtain ⟨addc, haddc, h⟩ := except_bind_ok h
  obtain ⟨adt, hadt, h⟩ := except_bind_ok h
  obtain ⟨avs, havs, h⟩ := except_bind_ok h
  obtain ⟨akp, hakp, h⟩ := except_bind_ok h
  injection h with h
  subst h
  obtain ⟨hne, hwr2⟩ := divQ_ok hwr
  exact ⟨hne, rfl, rfl, by rw [hwr2]⟩

/-- Inversion of a successful aggregation: the final loop state, the
assigned window bounds, the finalized champion list and the sorted output. -/
lemma get_match_stats_ok {env : String → MatchData} {sn sr puuid : String}
    {ids : List String} {res : MatchStats}
    (h : get_match_stats env sn sr puuid ids = .ok res) :
    ∃ st champs, runLoop env puuid ids = .ok st ∧
      st.start_time = some res.start_time ∧ st.end_time = some res.end_time ∧
      st.tmp.mapM (fun p => do
        let entry ← finalizeBucket p.2
        Except.ok (p.1, entry)) = .ok champs ∧
      res.champions = sortChamps champs ∧
      res.«matches» = st.valid_matches := by
  unfold get_match_stats at h
  obtain ⟨st, hst, h⟩ := except_bind_ok h
  cases hs : st.start_time with
  | none =>
    rw [hs] at h
    cases he : st.end_time with
    | none => rw [he] at h; cases h
    | some e => rw [he] at h; cases h
  | some s =>
    rw [hs] at h
    cases he : st.end_time with
    | none => rw [he] at h; cases h
    | some e =>
      rw [he] at h
      obtain ⟨champs, hch, h⟩ := except_bind_ok h
      injection h with h
      subst h
      exact ⟨st, champs, hst, hs, he, hch, rfl, rfl⟩

/-- Insertion into the champion list at most adds the inserted element. -/
lemma mem_insertDesc {a x : String × ChampEntry} :
    ∀ {l : List (String × ChampEntry)}, x ∈ insertDesc a l → x = a ∨ x ∈ l := by
  intro l
  induction l with
  | nil => intro h; exact Or.inl (List.mem_singleton.mp h)
  | cons b t ih =>
    intro h
    unfold insertDesc at h
    split at h
    · rcases List.mem_cons.mp h with h | h
      · exact Or.inl h
      · exact Or.inr h
    · rcases List.mem_cons.mp h with h | h
      · exact Or.inr (h ▸ List.mem_cons_self _ _)
      · rcases ih h with h | h
        · exact Or.inl h
        · exact Or.inr (List.mem_cons_of_mem _ h)

/-- Every element of the sorted champion list comes from the input list. -/
lemma mem_sortChamps {x : String × ChampEntry} :
    ∀ {l : List (String × ChampEntry)}, x ∈ sortChamps l → x ∈ l := by
  intro l
  induction l with
  | nil => intro h; cases h
  | cons b t ih =>
    intro h
    unfold sortChamps at h
    rw [List.foldr_cons] at h
    rcases mem_insertDesc h with h | h
    · exact h ▸ List.mem_cons_self _ _
    · exact List.mem_cons_of_mem _ (ih h)

/-- The per-match bucket update keeps wins at most matches: each qualifying
match adds one to matches and at most one to wins. -/
lemma stepPreserves_winsLe (puuid : String) (m : MatchData) :
    StepPreserves (fun b => b.wins ≤ b.«matches») puuid m := by
  intro pt s hs hpu gs ds dts vss kp _ _ _ _ _ b hb
  unfold bucketAdd
  dsimp only
  split <;> omega

/-- C5: every champion entry of a successful aggregate has wins at most
matches, a positive match count, and a win rate equal to wins divided by
matches rounded to two decimal places. -/
theorem C5_win_rate_consistent (env : String → MatchData)
    (sn sr puuid : String) (ids : List String) (res : MatchStats)
    (h : get_match_stats env sn sr puuid ids = .ok res) :
    ∀ p ∈ res.champions, p.2.wins ≤ p.2.«matches» ∧ 0 < p.2.«matches» ∧
      p.2.win_rate = round2 ((p.2.wins : ℚ) / (p.2.«matches» : ℚ)) := by
  obtain ⟨st, champs, hst, _, _, hch, hsort, _⟩ := get_match_stats_ok h
  have hwl : ∀ p ∈ st.tmp, p.2.wins ≤ p.2.«matches» :=
    runLoopAux_inv (Q := fun b => b.wins ≤ b.«matches») (by decide) ids 0 initState
      (fun mid _ => stepPreserves_winsLe puuid (env mid))
      (fun p hp => absurd hp (List.not_mem_nil p)) st hst
  intro p hp
  rw [hsort] at hp
  obtain ⟨x, hx, hfx⟩ := mapM_ok_mem hch p (mem_sortChamps hp)
  obtain ⟨entry, hentry, hfx⟩ := except_bind_ok hfx
  injection hfx with hfx
  obtain ⟨hne, hw, hm, hwr⟩ := finalizeBucket_ok hentry
  have hx2 := hwl x hx
  subst hfx
  dsimp only
  refine ⟨?_, ?_, ?_⟩
  · rw [hw, hm]; exact hx2
  · rw [hm]; exact Nat.pos_of_ne_zero hne
  · rw [hwr, hw, hm]

/-- Witness for C5 at the concrete happy-path aggregate. -/
theorem C5_win_rate_consistent_witness :
    get_match_stats envW "AD KING#LYON" "GOLD II" "p" ["m1"] = .ok resW ∧
    ∀ p ∈ resW.champions, p.2.wins ≤ p.2.«matches» ∧ 0 < p.2.«matches» ∧
      p.2.win_rate = round2 ((p.2.wins : ℚ) / (p.2.«matches» : ℚ)) :=
  ⟨rfl, C5_win_rate_consistent envW "AD KING#LYON" "GOLD II" "p" ["m1"] resW rfl⟩

/-- The descending comparison is total. -/
lemma champGe_total (a b : String × ChampEntry) :
    champGe a b = true ∨ champGe b a = true := by
  unfold champGe
  by_cases h : b.2.«matches» < a.2.«matches» ∨
      (b.2.«matches» = a.2.«matches» ∧ b.2.wins ≤ a.2.wins)
  · exact Or.inl (decide_eq_true h)
  · right
    apply decide_eq_true
    omega

/-- The descending comparison is transitive. -/
lemma champGe_trans {a b c : String × ChampEntry} (hab : champGe a b = true)
    (hbc : champGe b c = true) : champGe a c = true := by
  unfold champGe at hab hbc ⊢
  have h1 := of_decide_eq_true hab
  have h2 := of_decide_eq_true hbc
  apply decide_eq_true
  omega

/-- Insertion preserves descending sortedness. -/
lemma insertDesc_sorted {a : String × ChampEntry} :
    ∀ {l : List (String × ChampEntry)},
      l.Pairwise (fun x y => champGe x y = true) →
      (insertDesc a l).Pairwise (fun x y => champGe x y = true) := by
  intro l
  induction l with
  | nil => intro _; exact List.pairwise_singleton _ _
  | cons b t ih =>
    intro hp
    unfold insertDesc
    split
    case isTrue hab =>
      refine List.Pairwise.cons ?_ hp
      intro y hy
      rcases List.mem_cons.mp hy with hy | hy
      · exact hy ▸ hab
      · exact champGe_trans hab ((List.pairwise_cons.mp hp).1 y hy)
    case isFalse hab =>
      obtain ⟨hbt, hpt⟩ := List.pairwise_cons.mp hp
      refine List.Pairwise.cons ?_ (ih hpt)
      intro y hy
      rcases mem_insertDesc hy with hy | hy
      · subst hy
        rcases champGe_total y b with h | h
        · exact absurd h hab
        · exact h
      · exact hbt y hy

/-- The final champion sort is descending in the key pair (matches, wins). -/
lemma sortChamps_sorted (l : List (String × ChampEntry)) :
    (sortChamps l).Pairwise (fun x y => champGe x y = true) := by
  induction l with
  | nil => exact List.Pairwise.nil
  | cons b t ih =>
    unfold sortChamps at ih ⊢
    rw [List.foldr_cons]
    exact insertDesc_sorted ih

/-- C6: in a successful aggregate the champions mapping is ordered by
descending matches played, ties broken by descending wins: whenever entry A
precedes entry B, B has strictly fewer matches, or equally many matches and
at most as many wins, so an entry with the strictly greater key always
appears first. -/
theorem C6_champions_sorted (env : String → MatchData)
    (sn sr puuid : String) (ids : List String) (res : MatchStats)
    (h : get_match_stats env sn sr puuid ids = .ok res) :
    res.champions.Pairwise (fun x y => y.2.«matches» < x.2.«matches» ∨
      (y.2.«matches» = x.2.«matches» ∧ y.2.wins ≤ x.2.wins)) := by
  obtain ⟨st, champs, hst, _, _, hch, hsort, _⟩ := get_match_stats_ok h
  rw [hsort]
  exact (sortChamps_sorted champs).imp (fun hxy => of_decide_eq_true hxy)

/-- Witness for C6 at the concrete happy-path aggregate. -/
theorem C6_champions_sorted_witness :
    get_match_stats envW "AD KING#LYON" "GOLD II" "p" ["m1"] = .ok resW ∧
    resW.champions.Pairwise (fun x y => y.2.«matches» < x.2.«matches» ∨
      (y.2.«matches» = x.2.«matches» ∧ y.2.wins ≤ x.2.wins)) :=
  ⟨rfl, C6_champions_sorted envW "AD KING#LYON" "GOLD II" "p" ["m1"] resW rfl⟩

/-- The end- and start-bound components of a successful loop iteration come
from the window recording alone. -/
lemma stepMatch_ok_times {puuid : String} {n i : Nat} {st st2 : LoopState}
    {m : MatchData} (h : stepMatch puuid n i st m = .ok st2) :
    st2.end_time = (if i = 0 then some m.start_time else st.end_time) ∧
    st2.start_time = (if i = n - 1 then some m.start_time else st.start_time) := by
  unfold stepMatch at h
  dsimp only at h
  split at h
  · injection h with h
    subst h
    exact ⟨windowUpd_end_time n i st m, windowUpd_start_time n i st m⟩
  · split at h
    · simp at h
    · rename_i pt hpt
      split at h
      · injection h with h
        subst h
        exact ⟨windowUpd_end_time n i st m, windowUpd_start_time n i st m⟩
      · obtain ⟨tmp2, hfold, h⟩ := except_bind_ok h
        injection h with h
        subst h
        exact ⟨windowUpd_end_time n i st m, windowUpd_start_time n i st m⟩

/-- Once past index zero the loop never touches the end bound. -/
lemma runLoopAux_end_time_frozen {env : String → MatchData} {puuid : String}
    {n : Nat} :
    ∀ (ids : List String) (i : Nat) (st st2 : LoopState), i ≠ 0 →
      runLoopAux env puuid n i st ids = .ok st2 → st2.end_time = st.end_time := by
  intro ids
  induction ids with
  | nil =>
    intro i st st2 _ h
    simp only [runLoopAux] at h
    injection h with h
    exact h ▸ rfl
  | cons a t ih =>
    intro i st st2 hi h
    simp only [runLoopAux] at h
    obtain ⟨stm, hstm, hrest⟩ := except_bind_ok h
    have h1 := (stepMatch_ok_times hstm).1
    rw [if_neg hi] at h1
    rw [ih (i + 1) stm st2 (Nat.succ_ne_zero i) hrest, h1]

/-- The end bound of a successful run is the first listed match's start
time. -/
lemma runLoopAux_end_time_first {env : String → MatchData} {puuid : String}
    {n : Nat} {mid : String} {ids : List String} {st st2 : LoopState}
    (h : runLoopAux env puuid n 0 st (mid :: ids) = .ok st2) :
    st2.end_time = some (env mid).start_time := by
  simp only [runLoopAux] at h
  obtain ⟨stm, hstm, hrest⟩ := except_bind_ok h
  have h1 := (stepMatch_ok_times hstm).1
  rw [if_pos rfl] at h1
  rw [runLoopAux_end_time_frozen ids 1 stm st2 one_ne_zero hrest, h1]

/-- The start bound of a successful run is the last listed match's start
time, when the starting index lines up with the list length. -/
lemma runLoopAux_start_time_last {env : String → MatchData} {puuid : String}
    {n : Nat} :
    ∀ (ids : List String) (hne : ids ≠ []) (i : Nat) (st st2 : LoopState),
      i + ids.length = n →
      runLoopAux env puuid n i st ids = .ok st2 →
      st2.start_time = some (env (ids.getLast hne)).start_time := by
  intro ids
  induction ids with
  | nil => intro hne; exact absurd rfl hne
  | cons a t ih =>
    intro hne i st st2 hlen h
    simp only [runLoopAux] at h
    obtain ⟨stm, hstm, hrest⟩ := except_bind_ok h
    cases t with
    | nil =>
      simp only [runLoopAux] at hrest
      injection hrest with hrest
      subst hrest
      have h1 := (stepMatch_ok_times hstm).2
      rw [if_pos (by simp at hlen; omega)] at h1
      exact h1
    | cons b t2 =>
      have h2 := ih (by simp) (i + 1) stm st2 (by simp at hlen ⊢; omega) hrest
      rw [h2, List.getLast_cons (by simp : (b :: t2) ≠ [])]

/-- C7: on a non-empty input the metadata end bound equals the first listed
match's start time and the start bound equals the last listed match's start
time, independent of the filters and of any wall-clock sorting. -/
theorem C7_window_from_input_order (env : String → MatchData)
    (sn sr puuid : String) (ids : List String) (res : MatchStats)
    (hne : ids ≠ []) (h : get_match_stats env sn sr puuid ids = .ok res) :
    res.end_time = (env (ids.head hne)).start_time ∧
    res.start_time = (env (ids.getLast hne)).start_time := by
  obtain ⟨st, champs, hst, hstart, hend, _, _, _⟩ := get_match_stats_ok h
  unfold runLoop at hst
  cases ids with
  | nil => exact absurd rfl hne
  | cons a t =>
    constructor
    · have h1 := runLoopAux_end_time_first hst
      rw [hend] at h1
      injection h1 with h1
    · have h2 := runLoopAux_start_time_last (a :: t) hne 0 initState st (by simp) hst
      rw [hstart] at h2
      injection h2 with h2

/-- Witness for C7 at the concrete happy-path aggregate. -/
theorem C7_window_from_input_order_witness :
    (["m1"] ≠ ([] : List String)) ∧
    get_match_stats envW "AD KING#LYON" "GOLD II" "p" ["m1"] = .ok resW ∧
    resW.end_time = (envW (["m1"].head (by decide))).start_time ∧
    resW.start_time = (envW (["m1"].getLast (by decide))).start_time :=
  ⟨by decide, rfl,
    C7_window_from_input_order envW "AD KING#LYON" "GOLD II" "p" ["m1"] resW
      (by decide) rfl⟩

/-- A page is a sublist of the service state. -/
lemma listIds_sublist (svc : List UpstreamMatch) (c : Nat) (e : Option Nat) :
    (listIds svc c e).Sublist svc :=
  (List.take_sublist _ _).trans (List.filter_sublist _)

/-- Window facts for a member of an end-bounded page. -/
lemma mem_listIds_some {svc : List UpstreamMatch} {c x : Nat} {m : UpstreamMatch}
    (hm : m ∈ listIds svc c (some x)) : m ∈ svc ∧ c ≤ tsSec m ∧ tsSec m < x := by
  have h2 := List.take_subset 100 _ hm
  rw [List.mem_filter] at h2
  have h3 := h2.2
  simp only [Bool.and_eq_true, decide_eq_true_eq] at h3
  exact ⟨(listIds_sublist svc c (some x)).subset hm, h3.1, h3.2⟩

/-- Window facts for a member of the initial, unbounded page. -/
lemma mem_listIds_none {svc : List UpstreamMatch} {c : Nat} {m : UpstreamMatch}
    (hm : m ∈ listIds svc c none) : m ∈ svc ∧ c ≤ tsSec m := by
  have h2 := List.take_subset 100 _ hm
  rw [List.mem_filter] at h2
  have h3 := h2.2
  simp only [Bool.and_eq_true, decide_eq_true_eq] at h3
  exact ⟨(listIds_sublist svc c none).subset hm, h3.1⟩

/-- In a list pairwise ordered by a reflexive relation, every element is
related to the last element. -/
lemma pairwise_le_getLast {α : Type} {R : α → α → Prop} (hrefl : ∀ a, R a a) :
    ∀ {l : List α} (hp : l.Pairwise R) (hne : l ≠ []),
      ∀ x ∈ l, R x (l.getLast hne) := by
  intro l
  induction l with
  | nil => intro _ hne; exact absurd rfl hne
  | cons a t ih =>
    intro hp hne x hx
    cases t with
    | nil =>
      rw [List.mem_singleton.mp hx]
      exact hrefl _
    | cons b t2 =>
      obtain ⟨hat, hpt⟩ := List.pairwise_cons.mp hp
      rw [List.getLast_cons (by simp : (b :: t2) ≠ [])]
      rcases List.mem_cons.mp hx with hx | hx
      · exact hx ▸ hat _ (List.getLast_mem _)
      · exact ih hpt (by simp) x hx

/-- A strictly earlier floored second forces a strictly earlier millisecond
timestamp. -/
lemma ms_lt_of_tsSec_lt {a b : UpstreamMatch} (h : tsSec a < tsSec b) :
    a.gameStartTimestamp < b.gameStartTimestamp := by
  by_contra hc
  push_neg at hc
  exact absurd (Nat.div_le_div_right hc) (Nat.not_le.mpr h)

/-- Concatenating a page with a tail that is entirely older (in floored
seconds) than the page's last element stays newest-first and duplicate-free. -/
lemma append_batch_good {batch rest : List UpstreamMatch} (hb : batch ≠ [])
    (hbs : newestFirst batch) (hbn : batch.Nodup)
    (hrs : newestFirst rest) (hrn : rest.Nodup)
    (hrest : ∀ b ∈ rest, tsSec b < tsSec (batch.getLast hb)) :
    newestFirst (batch ++ rest) ∧ (batch ++ rest).Nodup := by
  have hg : ∀ x ∈ batch,
      (batch.getLast hb).gameStartTimestamp ≤ x.gameStartTimestamp :=
    pairwise_le_getLast (α := UpstreamMatch)
      (R := fun a b => b.gameStartTimestamp ≤ a.gameStartTimestamp)
      (fun a => le_refl _) hbs hb
  constructor
  · rw [newestFirst, List.pairwise_append]
    refine ⟨hbs, hrs, fun a ha b hbm => ?_⟩
    exact le_of_lt (lt_of_lt_of_le (ms_lt_of_tsSec_lt (hrest b hbm)) (hg a ha))
  · rw [List.nodup_append]
    refine ⟨hbn, hrn, fun a ha har => ?_⟩
    have h1 := hrest a har
    have h3 : tsSec (batch.getLast hb) ≤ tsSec a := Nat.div_le_div_right (hg a ha)
    omega

/-- Every match returned by the pagination loop comes from the service, lies
at or after the cutoff, and starts strictly before the current end bound. -/
lemma fetchLoop_mem {svc : List UpstreamMatch} {cutoff : Nat} :
    ∀ (last : Nat) (m : UpstreamMatch), m ∈ fetchLoop svc cutoff last →
      m ∈ svc ∧ cutoff ≤ tsSec m ∧ tsSec m < last := by
  intro last
  induction last using Nat.strong_induction_on with
  | _ last ih =>
    intro m hm
    unfold fetchLoop at hm
    dsimp only at hm
    split at hm
    · split at hm
      · cases hm
      · rename_i hcut hb
        rcases List.mem_append.mp hm with h | h
        · exact mem_listIds_some h
        · have hlast :
              tsSec ((listIds svc cutoff (some last)).getLast hb) < last :=
            (mem_listIds_some (List.getLast_mem hb)).2.2
          obtain ⟨h1, h2, h3⟩ := ih _ hlast m h
          exact ⟨h1, h2, h3.trans hlast⟩
    · cases hm

/-- The pagination loop returns a newest-first, duplicate-free list. -/
lemma fetchLoop_good {svc : List UpstreamMatch} (hsort : newestFirst svc)
    (hnd : svc.Nodup) {cutoff : Nat} :
    ∀ last, newestFirst (fetchLoop svc cutoff last) ∧
      (fetchLoop svc cutoff last).Nodup := by
  intro last
  induction last using Nat.strong_induction_on with
  | _ last ih =>
    unfold fetchLoop
    dsimp only
    split
    · split
      · exact ⟨List.Pairwise.nil, List.nodup_nil⟩
      · rename_i hcut hb
        have hlast : tsSec ((listIds svc cutoff (some last)).getLast hb) < last :=
          (mem_listIds_some (List.getLast_mem hb)).2.2
        refine append_batch_good hb ?_ ?_ (ih _ hlast).1 (ih _ hlast).2 ?_
        · exact List.Pairwise.sublist (listIds_sublist svc cutoff (some last)) hsort
        · exact List.Sublist.nodup (listIds_sublist svc cutoff (some last)) hnd
        · intro b hbm
          exact (fetchLoop_mem _ b hbm).2.2
    · exact ⟨List.Pairwise.nil, List.nodup_nil⟩

/-- Every match returned by get_match_matches comes from the service and
starts at or after the one-year cutoff. -/
lemma get_match_matches_mem {svc : List UpstreamMatch} {cutoff : Nat}
    {m : UpstreamMatch} (hm : m ∈ get_match_matches svc cutoff) :
    m ∈ svc ∧ cutoff ≤ tsSec m := by
  unfold get_match_matches at hm
  dsimp only at hm
  split at hm
  · cases hm
  · rcases List.mem_append.mp hm with h | h
    · exact mem_listIds_none h
    · obtain ⟨h1, h2, _⟩ := fetchLoop_mem _ m h
      exact ⟨h1, h2⟩

/-- The concatenated pages are newest-first and duplicate-free. -/
lemma get_match_matches_good {svc : List UpstreamMatch} (hsort : newestFirst svc)
    (hnd : svc.Nodup) (cutoff : Nat) :
    newestFirst (get_match_matches svc cutoff) ∧
      (get_match_matches svc cutoff).Nodup := by
  unfold get_match_matches
  dsimp only
  split
  · exact ⟨List.Pairwise.nil, List.nodup_nil⟩
  · rename_i hb
    refine append_batch_good hb ?_ ?_
      (fetchLoop_good hsort hnd _).1 (fetchLoop_good hsort hnd _).2 ?_
    · exact List.Pairwise.sublist (listIds_sublist svc cutoff none) hsort
    · exact List.Sublist.nodup (listIds_sublist svc cutoff none) hnd
    · intro b hbm
      exact (fetchLoop_mem _ b hbm).2.2

/-- C2: against a service state that lists the player's ranked matches
newest-first with distinct identifiers (the section 6 contract), the id list
returned by get_match_ids has no duplicates, the underlying match sequence
is ordered newest-first (descending by match start time), and every returned
match starts at or after the 365-day cutoff. -/
theorem C2_match_ids_nodup_newest_first (svc : List UpstreamMatch)
    (cutoff : Nat) (hsort : newestFirst svc)
    (hids : (svc.map (fun m => m.id)).Nodup) :
    (get_match_ids svc cutoff).Nodup ∧
    newestFirst (get_match_matches svc cutoff) ∧
    (∀ m ∈ get_match_matches svc cutoff, cutoff ≤ tsSec m) := by
  have hnd : svc.Nodup := List.Nodup.of_map (fun m => m.id) hids
  obtain ⟨hgs, hgn⟩ := get_match_matches_good hsort hnd cutoff
  refine ⟨?_, hgs, fun m hm => (get_match_matches_mem hm).2⟩
  unfold get_match_ids
  refine List.Nodup.map_on ?_ hgn
  intro x hx y hy hxy
  exact List.inj_on_of_nodup_map hids (get_match_matches_mem hx).1
    (get_match_matches_mem hy).1 hxy

/-- Witness for C2 at the concrete three-match service. -/
theorem C2_match_ids_nodup_newest_first_witness :
    newestFirst svcW ∧ (svcW.map (fun m => m.id)).Nodup ∧
    ((get_match_ids svcW 500).Nodup ∧
      newestFirst (get_match_matches svcW 500) ∧
      (∀ m ∈ get_match_matches svcW 500, 500 ≤ tsSec m)) :=
  ⟨by decide, by decide,
    C2_match_ids_nodup_newest_first svcW 500 (by decide) (by decide)⟩
